import Mathlib

/-!
Shallow embedding of `src/server/address.rs` (wallet registry of the clore
pool manager).

Modelling conventions:
* `DateTime<Local>` values are modelled by their `timestamp()` in seconds,
  as an `Int`; the code only ever compares timestamps by subtraction of
  `timestamp()` values, and stamps fields with `Local::now()`, which is
  passed in explicitly as a `now : Int` argument.
* `HashMap<String, Wallet>` is modelled as an association list
  `List (String × Wallet)`; `insert` replaces an existing key in place and
  otherwise appends, `get_mut`-style mutation is an in-place map over the
  entry with the given key.  Iteration order of the map is the list order.
* The network collaborators (`Clore::my_orders`, `ssh::try_run_command_remote`,
  the two classification endpoints, `Clore::cancel_order`) are modelled as
  explicit input parameters: `filter` takes the outcome of the order listing
  and of the remote status query, `check` takes the two classification
  oracles as functions from address to the `AddressType` those remote
  calls produced, and `filter_log_timeout` returns the list of order ids it
  submits for cancellation (the cancellation results are only logged by the
  code and never read).
* `&mut self` methods become explicit state passing: each returns the new
  registry together with its Rust return value.
-/

set_option autoImplicit false

/-- `enum AddressType { MASTER, SUB, NULL }` from `address.rs`. -/
inductive AddressType where
  | MASTER
  | SUB
  | NULL
deriving DecidableEq, Repr

/-- `enum Deployed` from `address.rs`: `NOTASSIGNED`, or `DEPLOYING` /
`DEPLOYED` each carrying `{orderid, serverid, sshaddr, sshport}`. -/
inductive Deployed where
  | NOTASSIGNED
  | DEPLOYING (orderid : Nat) (serverid : Nat) (sshaddr : Option String) (sshport : Option Nat)
  | DEPLOYED (orderid : Nat) (serverid : Nat) (sshaddr : Option String) (sshport : Option Nat)
deriving DecidableEq, Repr

/-- `struct Wallet` from `address.rs`; the two `DateTime<Local>` options are
modelled by their second timestamps. -/
structure Wallet where
  address : String
  addr_type : AddressType
  start_time : Option Int
  report_last_time : Option Int
  deploy : Deployed
deriving DecidableEq, Repr

/-- `Wallet::new`: fresh wallet with no timestamps and `NOTASSIGNED`. -/
def Wallet.new (address : String) (addr_type : AddressType) : Wallet :=
  { address := address
    addr_type := addr_type
    start_time := none
    report_last_time := none
    deploy := Deployed.NOTASSIGNED }

/-- `struct Address(pub HashMap<String, Wallet>)`, modelled as an association
list from address string to wallet. -/
abbrev Address := List (String × Wallet)

/-- `HashMap::get` / `contains_key`: first entry with the given key. -/
def Address.lookup : Address → String → Option Wallet
  | [], _ => none
  | p :: rest, a => if p.1 = a then some p.2 else Address.lookup rest a

/-- `HashMap::insert`: replace the entry with this key, else append. -/
def Address.insert : Address → String → Wallet → Address
  | [], a, w => [(a, w)]
  | p :: rest, a, w =>
    if p.1 = a then (a, w) :: rest else p :: Address.insert rest a w

/-- `HashMap::get_mut` followed by a mutation of the found wallet: apply `f`
to the entry with the given key. -/
def Address.updateW (st : Address) (a : String) (f : Wallet → Wallet) : Address :=
  st.map (fun p => if p.1 = a then (p.1, f p.2) else p)

/-- The classification expression inside `Address::check`:
`if let MASTER = mstaddress {MASTER} else if let SUB = subaddress {SUB}
else {NULL}`, where `mst`/`sub` are the results of the two remote checks. -/
def Address.classify (mst sub : String → AddressType) (a : String) : AddressType :=
  if mst a = AddressType.MASTER then AddressType.MASTER
  else if sub a = AddressType.SUB then AddressType.SUB
  else AddressType.NULL

/-- `Address::check`: walk the candidate wallets in order; skip addresses
already in the registry; classify the rest and insert those whose role is
not `NULL`.  `mst`/`sub` are the classification oracles (the outcomes of
`Address::mstaddress` / `Address::subaddress` for each address). -/
def Address.check (st : Address) (others : List Wallet)
    (mst sub : String → AddressType) : Address :=
  match others with
  | [] => st
  | w :: rest =>
    if (Address.lookup st w.address).isSome then
      Address.check st rest mst sub
    else
      if Address.classify mst sub w.address ≠ AddressType.NULL then
        Address.check
          (Address.insert st w.address
            (Wallet.new w.address (Address.classify mst sub w.address)))
          rest mst sub
      else
        Address.check st rest mst sub

/-- The inner double loop of `Address::filter`: for each resolved
`(address, deployed)` pair, overwrite the `deploy` field of every entry of
`ws` whose address matches.  In the code `ws` is the local `wallets` vector
(freshly created and still empty at this point), not the registry. -/
def Address.overwriteResolved (pairs : List (String × Deployed))
    (ws : List Wallet) : List Wallet :=
  pairs.foldl
    (fun acc q =>
      acc.map (fun w => if w.address = q.1 then { w with deploy := q.2 } else w))
    ws

/-- The selection loop of `Address::filter`: clone every registry wallet
with `addr_type == SUB` and `deploy == NOTASSIGNED`, in iteration order. -/
def Address.subUnassigned (st : Address) : List Wallet :=
  (st.filter
    (fun p => p.2.addr_type = AddressType.SUB ∧ p.2.deploy = Deployed.NOTASSIGNED)).map
    (fun p => p.2)

/-- `Address::filter`.  `ordersOk` is whether `Clore::my_orders` returned
`Ok`; `lists`/`errs` are the two components returned by
`ssh::try_run_command_remote` (only consulted when `ordersOk`).  Returns the
registry after the call together with the returned wallet list. -/
def Address.filterImpl (st : Address) (ordersOk : Bool)
    (lists : List (String × Deployed)) (errs : List String) :
    Address × List Wallet :=
  let wallets : List Wallet := []
  if ordersOk then
    if ¬ errs.isEmpty then
      (st, wallets)
    else
      let wallets := Address.overwriteResolved lists wallets
      (st, wallets ++ Address.subUnassigned st)
  else
    (st, wallets ++ Address.subUnassigned st)

/-- `Address::assgin_server`: not-found error when the address is absent,
conflict error when the wallet is not `NOTASSIGNED`, otherwise set
`deploy := deploy` and `start_time := now`.  Returns the registry after the
call together with the Rust `Result<(), String>`. -/
def Address.assgin_server (st : Address) (wallet_adress : String)
    (deploy : Deployed) (now : Int) : Address × Except String Unit :=
  match Address.lookup st wallet_adress with
  | none => (st, Except.error "不存在钱包地址！")
  | some w =>
    if Deployed.NOTASSIGNED = w.deploy then
      (Address.updateW st wallet_adress
        (fun w => { w with deploy := deploy, start_time := some now }), Except.ok ())
    else
      (st, Except.error "当前地址状态不是待分配状态！")

/-- `Address::update_log_collect_time`: `false` when the address is absent;
when the wallet is `DEPLOYING`, stamp `report_last_time := now` and move to
`DEPLOYED` with the same payload, returning `true`; otherwise `true` with no
change. -/
def Address.update_log_collect_time (st : Address) (wallet_adress : String)
    (now : Int) : Address × Bool :=
  match Address.lookup st wallet_adress with
  | none => (st, false)
  | some w =>
    match w.deploy with
    | Deployed.DEPLOYING o s sa sp =>
      (Address.updateW st wallet_adress
        (fun w => { w with report_last_time := some now,
                           deploy := Deployed.DEPLOYED o s sa sp }), true)
    | _ => (st, true)

/-- One iteration of the scan loop of `Address::filter_log_timeout`: the
order ids this wallet contributes — its `orderid` when the wallet is
`DEPLOYING` with a present `start_time` more than `15*60` seconds before
`now`, or `DEPLOYED` with a present `report_last_time` more than `10*60`
seconds before `now`; nothing otherwise. -/
def Wallet.flagged (w : Wallet) (now : Int) : List Nat :=
  match w.deploy with
  | Deployed.NOTASSIGNED => []
  | Deployed.DEPLOYING o _ _ _ =>
    match w.start_time with
    | some t => if now - t > 15 * 60 then [o] else []
    | none => []
  | Deployed.DEPLOYED o _ _ _ =>
    match w.report_last_time with
    | some t => if now - t > 10 * 60 then [o] else []
    | none => []

/-- The scan loop of `Address::filter_log_timeout`: collect, in registry
iteration order, the order ids flagged for each wallet. -/
def Address.timeoutOrders : Address → Int → List Nat
  | [], _ => []
  | p :: rest, now => Wallet.flagged p.2 now ++ Address.timeoutOrders rest now

/-- `Address::filter_log_timeout`: returns the registry after the call and
the list of order ids submitted to `Clore::cancel_order`.  The cancellation
results are only logged by the code, never stored. -/
def Address.filter_log_timeout (st : Address) (now : Int) : Address × List Nat :=
  (st, Address.timeoutOrders st now)

/-- The registry invariant of the spec: each address occurs at most once and
no stored wallet has role `NULL`. -/
def Address.Inv (st : Address) : Prop :=
  (st.map Prod.fst).Nodup ∧ ∀ p ∈ st, p.2.addr_type ≠ AddressType.NULL

/-- Registry states reachable from the empty registry by the five
operations, for arbitrary oracle outcomes / arguments. -/
inductive Address.Reachable : Address → Prop where
  | init : Address.Reachable []
  | check (st : Address) (others : List Wallet) (mst sub : String → AddressType) :
      Address.Reachable st → Address.Reachable (Address.check st others mst sub)
  | filter (st : Address) (ordersOk : Bool) (lists : List (String × Deployed))
      (errs : List String) : Address.Reachable st →
      Address.Reachable (Address.filterImpl st ordersOk lists errs).1
  | assgin (st : Address) (a : String) (d : Deployed) (now : Int) :
      Address.Reachable st → Address.Reachable (Address.assgin_server st a d now).1
  | report (st : Address) (a : String) (now : Int) :
      Address.Reachable st →
      Address.Reachable (Address.update_log_collect_time st a now).1
  | reap (st : Address) (now : Int) :
      Address.Reachable st → Address.Reachable (Address.filter_log_timeout st now).1

/-! ### Helper lemmas about the registry operations -/

theorem Address.lookup_updateW_self (st : Address) (a : String) (f : Wallet → Wallet)
    (w : Wallet) (h : Address.lookup st a = some w) :
    Address.lookup (Address.updateW st a f) a = some (f w) := by
  induction st with
  | nil => simp [Address.lookup] at h
  | cons p rest ih =>
    by_cases hp : p.1 = a
    · simp [Address.lookup, hp] at h
      simp [Address.updateW, Address.lookup, hp, h]
    · simp [Address.lookup, hp] at h
      simpa [Address.updateW, Address.lookup, hp] using ih h

theorem Address.lookup_updateW_ne (st : Address) (a b : String) (f : Wallet → Wallet)
    (h : b ≠ a) :
    Address.lookup (Address.updateW st a f) b = Address.lookup st b := by
  have hab : ¬ (a = b) := fun e => h e.symm
  induction st with
  | nil => rfl
  | cons p rest ih =>
    by_cases hp : p.1 = a
    · simp [Address.updateW, Address.lookup, hp, hab] at ih ⊢
      exact ih
    · by_cases hb : p.1 = b
      · simp [Address.updateW, Address.lookup, hp, hb, h]
      · simp [Address.updateW, Address.lookup, hp, hb] at ih ⊢
        exact ih

theorem Address.lookup_insert_ne (st : Address) (a b : String) (w : Wallet)
    (h : b ≠ a) :
    Address.lookup (Address.insert st a w) b = Address.lookup st b := by
  have hab : ¬ (a = b) := fun e => h e.symm
  induction st with
  | nil => simp [Address.insert, Address.lookup, hab]
  | cons p rest ih =>
    by_cases hp : p.1 = a
    · simp [Address.insert, Address.lookup, hp, hab]
    · by_cases hb : p.1 = b
      · simp [Address.insert, Address.lookup, hp, hb, h]
      · simp [Address.insert, Address.lookup, hp, hb] at ih ⊢
        exact ih

theorem Address.insert_of_absent (st : Address) (a : String) (w : Wallet)
    (h : Address.lookup st a = none) :
    Address.insert st a w = st ++ [(a, w)] := by
  induction st with
  | nil => rfl
  | cons p rest ih =>
    by_cases hp : p.1 = a
    · simp [Address.lookup, hp] at h
    · simp [Address.lookup, hp] at h
      simp [Address.insert, hp, ih h]

theorem Address.not_mem_keys_of_lookup_none (st : Address) (a : String)
    (h : Address.lookup st a = none) : a ∉ st.map Prod.fst := by
  induction st with
  | nil => simp
  | cons p rest ih =>
    by_cases hp : p.1 = a
    · simp [Address.lookup, hp] at h
    · simp [Address.lookup, hp] at h
      simp only [List.map_cons, List.mem_cons]
      push_neg
      exact ⟨fun e => hp e.symm, ih h⟩

theorem Address.keys_updateW (st : Address) (a : String) (f : Wallet → Wallet) :
    (Address.updateW st a f).map Prod.fst = st.map Prod.fst := by
  induction st with
  | nil => rfl
  | cons p rest ih =>
    by_cases hp : p.1 = a
    · simp [Address.updateW, hp] at ih ⊢
      exact ih
    · simp [Address.updateW, hp] at ih ⊢
      exact ih

theorem Address.overwriteResolved_nil (pairs : List (String × Deployed)) :
    Address.overwriteResolved pairs [] = [] := by
  induction pairs with
  | nil => rfl
  | cons q rest ih => simpa [Address.overwriteResolved, List.foldl_cons] using ih

theorem Address.mem_subUnassigned (st : Address) (w : Wallet) :
    w ∈ Address.subUnassigned st ↔
      ∃ a, (a, w) ∈ st ∧ w.addr_type = AddressType.SUB ∧
        w.deploy = Deployed.NOTASSIGNED := by
  simp only [Address.subUnassigned, List.mem_map, List.mem_filter]
  constructor
  · rintro ⟨p, ⟨hmem, hcond⟩, rfl⟩
    simp only [decide_eq_true_eq] at hcond
    exact ⟨p.1, hmem, hcond.1, hcond.2⟩
  · rintro ⟨a, hmem, h1, h2⟩
    exact ⟨(a, w), ⟨hmem, by simp [h1, h2]⟩, rfl⟩

theorem Address.fst_filterImpl (st : Address) (ordersOk : Bool)
    (lists : List (String × Deployed)) (errs : List String) :
    (Address.filterImpl st ordersOk lists errs).1 = st := by
  cases ordersOk with
  | false => rfl
  | true =>
    by_cases he : errs.isEmpty <;> simp [Address.filterImpl, he]

theorem Address.inv_updateW (st : Address) (a : String) (f : Wallet → Wallet)
    (hf : ∀ w, (f w).addr_type = w.addr_type) (h : Address.Inv st) :
    Address.Inv (Address.updateW st a f) := by
  obtain ⟨hk, hv⟩ := h
  refine ⟨by rwa [Address.keys_updateW], ?_⟩
  intro p hp
  simp only [Address.updateW, List.mem_map] at hp
  obtain ⟨q, hq, hpq⟩ := hp
  by_cases hqa : q.1 = a
  · rw [← hpq]
    simpa [hqa, hf] using hv q hq
  · rw [← hpq]
    simpa [hqa] using hv q hq

theorem Address.inv_insert_absent (st : Address) (a : String) (w : Wallet)
    (ha : Address.lookup st a = none) (hw : w.addr_type ≠ AddressType.NULL)
    (h : Address.Inv st) : Address.Inv (Address.insert st a w) := by
  obtain ⟨hk, hv⟩ := h
  rw [Address.insert_of_absent st a w ha]
  constructor
  · rw [List.map_append]
    rw [List.nodup_append]
    refine ⟨hk, List.nodup_singleton _, ?_⟩
    intro x hx
    simp only [List.map_cons, List.map_nil, List.mem_singleton]
    intro e
    exact Address.not_mem_keys_of_lookup_none st a ha (e ▸ hx)
  · intro p hp
    rcases List.mem_append.mp hp with h1 | h1
    · exact hv p h1
    · simp only [List.mem_singleton] at h1
      subst h1
      exact hw

theorem Address.inv_check (st : Address) (others : List Wallet)
    (mst sub : String → AddressType) (h : Address.Inv st) :
    Address.Inv (Address.check st others mst sub) := by
  induction others generalizing st with
  | nil => simpa [Address.check] using h
  | cons x rest ih =>
    rw [Address.check]
    by_cases hx : (Address.lookup st x.address).isSome
    · rw [if_pos hx]
      exact ih st h
    · rw [if_neg hx]
      by_cases ht : Address.classify mst sub x.address ≠ AddressType.NULL
      · rw [if_pos ht]
        refine ih _ (Address.inv_insert_absent st x.address _ ?_ ht h)
        cases hlx : Address.lookup st x.address with
        | none => rfl
        | some _ => rw [hlx] at hx; simp at hx
      · rw [if_neg ht]
        exact ih st h

theorem Address.inv_assgin (st : Address) (a : String) (d : Deployed) (now : Int)
    (h : Address.Inv st) : Address.Inv (Address.assgin_server st a d now).1 := by
  cases hw : Address.lookup st a with
  | none => simpa [Address.assgin_server, hw] using h
  | some w =>
    by_cases hd : Deployed.NOTASSIGNED = w.deploy
    · simp only [Address.assgin_server, hw, if_pos hd]
      exact Address.inv_updateW st a _ (fun _ => rfl) h
    · simpa [Address.assgin_server, hw, hd] using h

theorem Address.inv_report (st : Address) (a : String) (now : Int)
    (h : Address.Inv st) :
    Address.Inv (Address.update_log_collect_time st a now).1 := by
  cases hw : Address.lookup st a with
  | none => simpa [Address.update_log_collect_time, hw] using h
  | some w =>
    cases hd : w.deploy with
    | NOTASSIGNED => simpa [Address.update_log_collect_time, hw, hd] using h
    | DEPLOYING o s sa sp =>
      simp only [Address.update_log_collect_time, hw, hd]
      exact Address.inv_updateW st a _ (fun _ => rfl) h
    | DEPLOYED o s sa sp => simpa [Address.update_log_collect_time, hw, hd] using h

/-! ### Claim theorems -/

/-- C1.  The claim says that during the status-refresh phase of `filter`
every `(address, binding)` pair resolved by the external status query
overwrites the binding of the registry wallet with that address.  The code
instead applies the overwrite loop to the freshly created — and therefore
empty — local candidate vector, so the registry is untouched: with a
registry holding the tracked `SUB` wallet `"a"` still `NOTASSIGNED` and the
status query resolving `("a", DEPLOYED 1 2)`, `filter` leaves the registry
exactly as it was and even returns wallet `"a"` as an unbound candidate. -/
theorem C1_filter_refresh_never_overwrites_registry :
    Address.filterImpl [("a", Wallet.new "a" AddressType.SUB)] true
        [("a", Deployed.DEPLOYED 1 2 none none)] [] =
      ([("a", Wallet.new "a" AddressType.SUB)], [Wallet.new "a" AddressType.SUB]) := by
  rfl

/-- C2.  When the refresh is not aborted (the status-query error list is
empty, or the order listing failed so the refresh block is skipped), the
list returned by `filter` contains exactly the registry wallets with role
`SUB` and binding `NOTASSIGNED`; in particular it never contains a `MASTER`
wallet or a wallet in `DEPLOYING`/`DEPLOYED` state. -/
theorem C2_filter_candidates_exactly_sub_unassigned (st : Address)
    (ordersOk : Bool) (lists : List (String × Deployed)) (errs : List String)
    (w : Wallet) (h : errs = [] ∨ ordersOk = false) :
    w ∈ (Address.filterImpl st ordersOk lists errs).2 ↔
      ∃ a, (a, w) ∈ st ∧ w.addr_type = AddressType.SUB ∧
        w.deploy = Deployed.NOTASSIGNED := by
  have h2 : (Address.filterImpl st ordersOk lists errs).2 = Address.subUnassigned st := by
    rcases h with h | h
    · subst h
      cases ordersOk <;> simp [Address.filterImpl, Address.overwriteResolved_nil]
    · subst h
      simp [Address.filterImpl]
  rw [h2]
  exact Address.mem_subUnassigned st w

/-- Witness for C2 at a concrete registry: the sole `SUB`/`NOTASSIGNED`
wallet is returned by `filter`. -/
theorem C2_witness :
    (([] : List String) = [] ∨ true = false) ∧
    Wallet.new "a" AddressType.SUB ∈
      (Address.filterImpl [("a", Wallet.new "a" AddressType.SUB)] true [] []).2 :=
  ⟨Or.inl rfl,
    (C2_filter_candidates_exactly_sub_unassigned
        [("a", Wallet.new "a" AddressType.SUB)] true [] []
        (Wallet.new "a" AddressType.SUB) (Or.inl rfl)).mpr
      ⟨"a", by simp, rfl, rfl⟩⟩

/-- C7.  If the order listing succeeded but the remote status query reports
a non-empty error list, `filter` aborts the cycle: it returns the empty
candidate list and the registry is exactly what it was. -/
theorem C7_filter_aborts_on_status_errors (st : Address)
    (lists : List (String × Deployed)) (errs : List String) (h : errs ≠ []) :
    Address.filterImpl st true lists errs = (st, []) := by
  have he : ¬ errs.isEmpty := by
    cases errs with
    | nil => exact absurd rfl h
    | cons e rest => simp [List.isEmpty]
  simp [Address.filterImpl, he]

/-- Witness for C7: one status-query error aborts the refresh. -/
theorem C7_witness :
    (["ssh failed"] : List String) ≠ [] ∧
    Address.filterImpl [("a", Wallet.new "a" AddressType.SUB)] true []
        ["ssh failed"] = ([("a", Wallet.new "a" AddressType.SUB)], []) :=
  ⟨by simp,
    C7_filter_aborts_on_status_errors [("a", Wallet.new "a" AddressType.SUB)]
      [] ["ssh failed"] (by simp)⟩

/-- C10.  A full reaper scan never mutates the registry: the state component
returned by `filter_log_timeout` is the input registry, so every wallet's
role, binding and timestamps read back unchanged, independent of which
orders were flagged (the cancellation calls are only logged by the code and
their outcomes never reach the registry). -/
theorem C10_reaper_preserves_registry (st : Address) (now : Int) :
    (Address.filter_log_timeout st now).1 = st ∧
    ∀ a, Address.lookup (Address.filter_log_timeout st now).1 a =
      Address.lookup st a :=
  ⟨rfl, fun _ => rfl⟩

/-- C3.  On a registry wallet whose binding is `NOTASSIGNED`, assignment
with a `DEPLOYING` (PENDING) payload succeeds, stamps `start_time` with the
call time, installs that payload as the wallet's binding, and leaves every
other address untouched. -/
theorem C3_assgin_server_unbound_succeeds (st : Address) (a : String)
    (w : Wallet) (o s : Nat) (sa : Option String) (sp : Option Nat) (now : Int)
    (hw : Address.lookup st a = some w) (hd : w.deploy = Deployed.NOTASSIGNED) :
    (Address.assgin_server st a (Deployed.DEPLOYING o s sa sp) now).2 =
      Except.ok () ∧
    Address.lookup (Address.assgin_server st a (Deployed.DEPLOYING o s sa sp) now).1 a =
      some { w with start_time := some now,
                    deploy := Deployed.DEPLOYING o s sa sp } ∧
    ∀ b, b ≠ a →
      Address.lookup (Address.assgin_server st a (Deployed.DEPLOYING o s sa sp) now).1 b =
        Address.lookup st b := by
  have hres : Address.assgin_server st a (Deployed.DEPLOYING o s sa sp) now =
      (Address.updateW st a
          (fun w => { w with deploy := Deployed.DEPLOYING o s sa sp,
                             start_time := some now }),
        Except.ok ()) := by
    simp [Address.assgin_server, hw, hd]
  rw [hres]
  refine ⟨rfl, ?_, ?_⟩
  · exact Address.lookup_updateW_self st a
      (fun w => { w with deploy := Deployed.DEPLOYING o s sa sp,
                         start_time := some now }) w hw
  · intro b hb
    exact Address.lookup_updateW_ne st a b
      (fun w => { w with deploy := Deployed.DEPLOYING o s sa sp,
                         start_time := some now }) hb

/-- Witness for C3: assigning order 7 / server 3 to the unbound `SUB`
wallet `"a"` at time 100 succeeds and stores the stamped binding. -/
theorem C3_witness :
    Address.lookup [("a", Wallet.new "a" AddressType.SUB)] "a" =
      some (Wallet.new "a" AddressType.SUB) ∧
    (Wallet.new "a" AddressType.SUB).deploy = Deployed.NOTASSIGNED ∧
    (Address.assgin_server [("a", Wallet.new "a" AddressType.SUB)] "a"
        (Deployed.DEPLOYING 7 3 none none) 100).2 = Except.ok () :=
  ⟨by simp [Address.lookup], rfl,
    (C3_assgin_server_unbound_succeeds [("a", Wallet.new "a" AddressType.SUB)]
        "a" (Wallet.new "a" AddressType.SUB) 7 3 none none 100
        (by simp [Address.lookup]) rfl).1⟩

/-- C4.  `assgin_server` fails exactly when the address is absent or the
wallet's binding is not `NOTASSIGNED`; an absent address yields the
not-found error, a bound wallet yields the conflict error, and in every
error case the registry is returned unchanged. -/
theorem C4_assgin_server_error_characterisation (st : Address) (a : String)
    (d : Deployed) (now : Int) :
    ((Address.assgin_server st a d now).2 ≠ Except.ok () ↔
        Address.lookup st a = none ∨
          ∃ w, Address.lookup st a = some w ∧
            w.deploy ≠ Deployed.NOTASSIGNED) ∧
    (∀ e, (Address.assgin_server st a d now).2 = Except.error e →
        (Address.assgin_server st a d now).1 = st) ∧
    (Address.lookup st a = none →
        (Address.assgin_server st a d now).2 = Except.error "不存在钱包地址！") ∧
    (∀ w, Address.lookup st a = some w → w.deploy ≠ Deployed.NOTASSIGNED →
        (Address.assgin_server st a d now).2 =
          Except.error "当前地址状态不是待分配状态！") := by
  cases hw : Address.lookup st a with
  | none => simp [Address.assgin_server, hw]
  | some w =>
    by_cases hd : w.deploy = Deployed.NOTASSIGNED
    · simp [Address.assgin_server, hw, hd]
    · have hd2 : ¬ (Deployed.NOTASSIGNED = w.deploy) := fun e => hd e.symm
      simp [Address.assgin_server, hw, hd2, hd]

/-- Witness for C4: an unknown address yields the not-found error and an
unchanged registry. -/
theorem C4_witness :
    Address.lookup [] "x" = none ∧
    (Address.assgin_server [] "x" Deployed.NOTASSIGNED 0).2 =
      Except.error "不存在钱包地址！" ∧
    (Address.assgin_server [] "x" Deployed.NOTASSIGNED 0).1 = [] :=
  ⟨rfl,
    (C4_assgin_server_error_characterisation [] "x" Deployed.NOTASSIGNED 0).2.2.1
      rfl,
    (C4_assgin_server_error_characterisation [] "x" Deployed.NOTASSIGNED 0).2.1
      "不存在钱包地址！"
      ((C4_assgin_server_error_characterisation [] "x" Deployed.NOTASSIGNED 0).2.2.1
        rfl)⟩

/-- C5.  `update_log_collect_time` returns `false` and leaves the registry
untouched when the address is absent; on a `DEPLOYING` wallet it stamps
`report_last_time` with the call time, moves the binding to `DEPLOYED` with
the same order/server/connection payload, returns `true`, and leaves every
other address untouched; on a wallet that is not `DEPLOYING` it returns
`true` with no change at all. -/
theorem C5_update_log_collect_time_spec (st : Address) (a : String) (now : Int) :
    (Address.lookup st a = none →
        Address.update_log_collect_time st a now = (st, false)) ∧
    (∀ w o s sa sp, Address.lookup st a = some w →
        w.deploy = Deployed.DEPLOYING o s sa sp →
        (Address.update_log_collect_time st a now).2 = true ∧
        Address.lookup (Address.update_log_collect_time st a now).1 a =
          some { w with report_last_time := some now,
                        deploy := Deployed.DEPLOYED o s sa sp } ∧
        ∀ b, b ≠ a →
          Address.lookup (Address.update_log_collect_time st a now).1 b =
            Address.lookup st b) ∧
    (∀ w, Address.lookup st a = some w →
        (∀ o s sa sp, w.deploy ≠ Deployed.DEPLOYING o s sa sp) →
        Address.update_log_collect_time st a now = (st, true)) := by
  refine ⟨?_, ?_, ?_⟩
  · intro h
    simp [Address.update_log_collect_time, h]
  · intro w o s sa sp hw hd
    have hres : Address.update_log_collect_time st a now =
        (Address.updateW st a
            (fun w => { w with report_last_time := some now,
                               deploy := Deployed.DEPLOYED o s sa sp }), true) := by
      simp [Address.update_log_collect_time, hw, hd]
    rw [hres]
    refine ⟨rfl, ?_, ?_⟩
    · exact Address.lookup_updateW_self st a
        (fun w => { w with report_last_time := some now,
                           deploy := Deployed.DEPLOYED o s sa sp }) w hw
    · intro b hb
      exact Address.lookup_updateW_ne st a b
        (fun w => { w with report_last_time := some now,
                           deploy := Deployed.DEPLOYED o s sa sp }) hb
  · intro w hw hnd
    cases hdep : w.deploy with
    | NOTASSIGNED => simp [Address.update_log_collect_time, hw, hdep]
    | DEPLOYING o s sa sp => exact absurd hdep (hnd o s sa sp)
    | DEPLOYED o s sa sp => simp [Address.update_log_collect_time, hw, hdep]

/-- Witness for C5: a liveness report for an absent address returns `false`
and changes nothing. -/
theorem C5_witness :
    Address.lookup [] "x" = none ∧
    Address.update_log_collect_time [] "x" 5 = ([], false) :=
  ⟨rfl, (C5_update_log_collect_time_spec [] "x" 5).1 rfl⟩

theorem Wallet.mem_flagged (w : Wallet) (now : Int) (o : Nat) :
    o ∈ Wallet.flagged w now ↔
      ((∃ s sa sp, w.deploy = Deployed.DEPLOYING o s sa sp) ∧
        ∃ t, w.start_time = some t ∧ now - t > 15 * 60) ∨
      ((∃ s sa sp, w.deploy = Deployed.DEPLOYED o s sa sp) ∧
        ∃ t, w.report_last_time = some t ∧ now - t > 10 * 60) := by
  cases hd : w.deploy with
  | NOTASSIGNED => simp [Wallet.flagged, hd]
  | DEPLOYING o2 s sa sp =>
    cases ht : w.start_time with
    | none => simp [Wallet.flagged, hd, ht]
    | some t =>
      by_cases hc : now - t > 15 * 60
      · simp only [Wallet.flagged, hd, ht, if_pos hc]
        simp [eq_comm]
        intro _
        omega
      · simp only [Wallet.flagged, hd, ht, if_neg hc]
        simp
        intro _
        omega
  | DEPLOYED o2 s sa sp =>
    cases ht : w.report_last_time with
    | none => simp [Wallet.flagged, hd, ht]
    | some t =>
      by_cases hc : now - t > 10 * 60
      · simp only [Wallet.flagged, hd, ht, if_pos hc]
        simp [eq_comm]
        intro _
        omega
      · simp only [Wallet.flagged, hd, ht, if_neg hc]
        simp
        intro _
        omega

/-- C6.  `filter_log_timeout` flags an order id exactly when some registry
wallet is `DEPLOYING` carrying that id with a present `start_time` strictly
more than `15*60` seconds before the scan time, or `DEPLOYED` carrying that
id with a present `report_last_time` strictly more than `10*60` seconds
before the scan time; `NOTASSIGNED` wallets and bound wallets lacking the
relevant timestamp contribute nothing, and ages of exactly `15*60`
(respectively `10*60`) seconds are not flagged because the comparison is
strict. -/
theorem C6_reaper_flags_iff (st : Address) (now : Int) (o : Nat) :
    o ∈ (Address.filter_log_timeout st now).2 ↔
      ∃ p ∈ st,
        ((∃ s sa sp, p.2.deploy = Deployed.DEPLOYING o s sa sp) ∧
          ∃ t, p.2.start_time = some t ∧ now - t > 15 * 60) ∨
        ((∃ s sa sp, p.2.deploy = Deployed.DEPLOYED o s sa sp) ∧
          ∃ t, p.2.report_last_time = some t ∧ now - t > 10 * 60) := by
  show o ∈ Address.timeoutOrders st now ↔ _
  induction st with
  | nil => simp [Address.timeoutOrders]
  | cons p rest ih =>
    rw [Address.timeoutOrders, List.mem_append, ih, Wallet.mem_flagged]
    constructor
    · rintro (h | ⟨q, hq, h⟩)
      · exact ⟨p, List.mem_cons_self p rest, h⟩
      · exact ⟨q, List.mem_cons_of_mem p hq, h⟩
    · rintro ⟨q, hq, h⟩
      rcases List.mem_cons.mp hq with e | hq2
      · exact Or.inl (e ▸ h)
      · exact Or.inr ⟨q, hq2, h⟩

/-- Witness for C6: a `DEPLOYING` wallet whose `start_time` is 901 seconds
old is flagged, via the characterisation applied at a concrete registry. -/
theorem C6_witness :
    7 ∈ (Address.filter_log_timeout
        [("a", { address := "a", addr_type := AddressType.SUB,
                 start_time := some 0, report_last_time := none,
                 deploy := Deployed.DEPLOYING 7 3 none none })] 901).2 :=
  (C6_reaper_flags_iff
      [("a", { address := "a", addr_type := AddressType.SUB,
               start_time := some 0, report_last_time := none,
               deploy := Deployed.DEPLOYING 7 3 none none })] 901 7).mpr
    ⟨("a", { address := "a", addr_type := AddressType.SUB,
             start_time := some 0, report_last_time := none,
             deploy := Deployed.DEPLOYING 7 3 none none }),
      List.mem_singleton.mpr rfl,
      Or.inl ⟨⟨3, none, none, rfl⟩, 0, rfl, by norm_num⟩⟩

/-- C8.  Re-running classification over any wallet list leaves every address
already present in the registry exactly as it was: the stored wallet (role,
binding and timestamps) reads back unchanged after `check`. -/
theorem C8_check_preserves_known (st : Address) (others : List Wallet)
    (mst sub : String → AddressType) (a : String) (w : Wallet)
    (h : Address.lookup st a = some w) :
    Address.lookup (Address.check st others mst sub) a = some w := by
  induction others generalizing st with
  | nil => simpa [Address.check] using h
  | cons x rest ih =>
    rw [Address.check]
    by_cases hx : (Address.lookup st x.address).isSome
    · rw [if_pos hx]
      exact ih st h
    · rw [if_neg hx]
      by_cases ht : Address.classify mst sub x.address ≠ AddressType.NULL
      · rw [if_pos ht]
        have hax : a ≠ x.address := by
          intro e
          rw [← e, h] at hx
          simp at hx
        refine ih _ ?_
        rw [Address.lookup_insert_ne st x.address a _ hax]
        exact h
      · rw [if_neg ht]
        exact ih st h

/-- Witness for C8: the registered wallet `"a"` survives a re-check of a
list containing it (with oracles that would classify everything `MASTER`). -/
theorem C8_witness :
    Address.lookup [("a", Wallet.new "a" AddressType.SUB)] "a" =
      some (Wallet.new "a" AddressType.SUB) ∧
    Address.lookup
        (Address.check [("a", Wallet.new "a" AddressType.SUB)]
          [Wallet.new "a" AddressType.NULL]
          (fun _ => AddressType.MASTER) (fun _ => AddressType.NULL)) "a" =
      some (Wallet.new "a" AddressType.SUB) :=
  ⟨by simp [Address.lookup],
    C8_check_preserves_known [("a", Wallet.new "a" AddressType.SUB)]
      [Wallet.new "a" AddressType.NULL]
      (fun _ => AddressType.MASTER) (fun _ => AddressType.NULL) "a"
      (Wallet.new "a" AddressType.SUB) (by simp [Address.lookup])⟩

/-- C9.  Every registry state reachable from the empty registry through the
five operations satisfies the invariant: addresses are unique keys and no
stored wallet has role `NULL`. -/
theorem C9_reachable_satisfies_inv (st : Address) (h : Address.Reachable st) :
    Address.Inv st := by
  induction h with
  | init => exact ⟨List.nodup_nil, by simp⟩
  | check st others mst sub hr ih => exact Address.inv_check st others mst sub ih
  | filter st ordersOk lists errs hr ih =>
    rw [Address.fst_filterImpl]
    exact ih
  | assgin st a d now hr ih => exact Address.inv_assgin st a d now ih
  | report st a now hr ih => exact Address.inv_report st a now ih
  | reap st now hr ih => exact ih

/-- Witness for C9: the invariant holds after classifying one address into
the empty registry and then assigning it. -/
theorem C9_witness :
    Address.Inv
      (Address.assgin_server
          (Address.check [] [Wallet.new "a" AddressType.NULL]
            (fun _ => AddressType.MASTER) (fun _ => AddressType.NULL))
          "a" (Deployed.DEPLOYING 7 3 none none) 0).1 :=
  C9_reachable_satisfies_inv _
    (Address.Reachable.assgin _ "a" (Deployed.DEPLOYING 7 3 none none) 0
      (Address.Reachable.check [] [Wallet.new "a" AddressType.NULL]
        (fun _ => AddressType.MASTER) (fun _ => AddressType.NULL)
        Address.Reachable.init))
